import Mathlib

/-!
Verification of the SHL Assessment Recommender catalog/recommendation core
(`main.py`) against its specification.

The Python source is shallowly embedded below.  Python strings are modelled
as Lean `String`s whose `data` (a `List Char`) is transformed by executable
models of the Python string operations used in the source (`replace`,
`strip`, `split`, `title`, `lower`, substring containment, `re.findall` of
digit runs, `re.sub` of character classes).  The character-class models are
ASCII-faithful (the source only ever handles ASCII catalog data and URLs).

`list(set(...))` in `get_recommendations_async` enumerates a Python `set`,
whose iteration order is not specified by the language; the recommendation
engine is therefore parameterised by an arbitrary admissible enumeration
(`IsSetList`): any function returning the set's elements without duplicates.
-/

namespace SHL

/-- Whitespace test matching Python `str.strip` / `\s` for the ASCII
whitespace characters that occur in this pipeline. -/
def isWs (c : Char) : Bool :=
  c == ' ' || c == '\t' || c == '\n' || c == '\r'

/-- Model of Python `str.strip()`: drop leading and trailing whitespace. -/
def stripL (l : List Char) : List Char :=
  ((l.dropWhile isWs).reverse.dropWhile isWs).reverse

/-- Does `l` start with `pat`? (helper for substring matching). -/
def startsL : List Char → List Char → Bool
  | _, [] => true
  | [], _ :: _ => false
  | a :: as, b :: bs => a == b && startsL as bs

/-- Model of Python's `pat in hay` substring containment operator. -/
def containsL : List Char → List Char → Bool
  | [], pat => pat.isEmpty
  | c :: cs, pat => startsL (c :: cs) pat || containsL cs pat

/-- Model of Python `str.replace(pat, rep)`: replace every non-overlapping
occurrence of `pat`, scanning left to right.  (All patterns used by the
source are non-empty; an empty pattern leaves the input unchanged.)  Each
step consumes at least one character, so `l.length` steps of fuel suffice;
the fuel keeps the recursion structural, hence kernel-reducible. -/
def replaceFuel : Nat → List Char → List Char → List Char → List Char
  | 0, l, _, _ => l
  | _ + 1, [], _, _ => []
  | fuel + 1, c :: cs, pat, rep =>
    if pat.length ≥ 1 ∧ startsL (c :: cs) pat then
      rep ++ replaceFuel fuel ((c :: cs).drop pat.length) pat rep
    else
      c :: replaceFuel fuel cs pat rep

def replaceL (l pat rep : List Char) : List Char :=
  replaceFuel l.length l pat rep

/-- Model of Python `str.split(sep)` for a single-character separator
(accumulator-based; `"".split("/") == [""]`, `"/a".split("/") == ["", "a"]`). -/
def splitOnCharAux (sep : Char) : List Char → List Char → List (List Char)
  | [], cur => [cur.reverse]
  | c :: cs, cur =>
    if c == sep then cur.reverse :: splitOnCharAux sep cs []
    else splitOnCharAux sep cs (c :: cur)

def splitOnChar (sep : Char) (l : List Char) : List (List Char) :=
  splitOnCharAux sep l []

/-- Model of Python `str.title()`: uppercase each letter that does not
follow a letter, lowercase every other letter (ASCII letters). -/
def titleAux : List Char → Bool → List Char
  | [], _ => []
  | c :: cs, prevAlpha =>
    if c.isAlpha then
      (if prevAlpha then c.toLower else c.toUpper) :: titleAux cs true
    else
      c :: titleAux cs false

def pyTitle (s : String) : String := String.mk (titleAux s.data false)

/-- Model of Python `str.lower()` (ASCII). -/
def lowerStr (s : String) : String := String.mk (s.data.map Char.toLower)

/-- Model of Python `url.rstrip('/')`. -/
def rstripSlash (s : String) : String :=
  String.mk (s.data.reverse.dropWhile (· == '/')).reverse

/-- Model of `url.rstrip('/').split('/')` from the source. -/
def urlParts (url : String) : List String :=
  (splitOnChar '/' (rstripSlash url).data).map String.mk

/-- Model of `re.findall(r'\d+', s)`: the maximal runs of digit characters
of `s`, in order.  `cur` accumulates the current run in reverse. -/
def digitRunsAux : List Char → List Char → List String
  | [], cur => if cur.isEmpty then [] else [String.mk cur.reverse]
  | c :: cs, cur =>
    if c.isDigit then digitRunsAux cs (c :: cur)
    else if cur.isEmpty then digitRunsAux cs []
    else String.mk cur.reverse :: digitRunsAux cs []

def digitRuns (s : String) : List String := digitRunsAux s.data []

/-- Decimal value of a digit string. -/
def natOfDigits (l : List Char) : Nat :=
  l.foldl (fun acc c => acc * 10 + (c.toNat - 48)) 0

/-- Model of Python `int(s)` restricted to the strings this program feeds
it (`re.findall(r'\d+', ...)` matches): succeeds exactly on non-empty
all-digit strings, raising `ValueError` (`none`) otherwise. -/
def pyInt (s : String) : Option Nat :=
  if !s.data.isEmpty && s.data.all Char.isDigit then some (natOfDigits s.data)
  else none

/-- Model of the comprehension `[int(id) for id in ids]`, which raises
(`none`) as soon as one conversion fails. -/
def parseIds : List String → Option (List Nat)
  | [] => some []
  | s :: rest =>
    match pyInt s, parseIds rest with
    | some n, some ns => some (n :: ns)
    | _, _ => none

/-- Keep-first deduplication, used both to state the uniqueness claims and
as one admissible enumeration of a Python set. -/
def dedupFirstAux {α : Type} [DecidableEq α] (seen : List α) : List α → List α
  | [] => []
  | x :: xs =>
    if x ∈ seen then dedupFirstAux seen xs
    else x :: dedupFirstAux (x :: seen) xs

def dedupFirst {α : Type} [DecidableEq α] (l : List α) : List α :=
  dedupFirstAux [] l

/-! ## Data model (`Assessment` pydantic model / cache file schema) -/

structure Assessment where
  name : String
  url : String
  remote_testing : Bool
  adaptive_support : Bool
  duration : String
  test_type : String
deriving DecidableEq

/-- First built-in default record (`scrape_shl_assessments`, fallback list). -/
def verifyRecord : Assessment :=
  { name := "Verify Interactive"
    url := "https://www.shl.com/solutions/products/verify-interactive/"
    remote_testing := true
    adaptive_support := true
    duration := "10-15 minutes"
    test_type := "Cognitive ability" }

/-- Second built-in default record (`scrape_shl_assessments`, fallback list). -/
def opqRecord : Assessment :=
  { name := "Occupational Personality Questionnaire (OPQ)"
    url := "https://www.shl.com/solutions/products/opq-personality-test/"
    remote_testing := true
    adaptive_support := false
    duration := "25-40 minutes"
    test_type := "Personality assessment" }

def defaultAssessments : List Assessment := [verifyRecord, opqRecord]

/-! ## Deduplicator/Normalizer (`scrape_shl_assessments`, lines 300-325) -/

/-- The slug-to-name conversion
`part.replace("-", " ").replace("%20", " ").strip()` followed by
`.title()`, shared by the fetch-time name fallback (lines 187-189) and the
dedup-time name repair (lines 312-314). -/
def slugToName (p : String) : String :=
  String.mk (titleAux (stripL (replaceL (replaceL p.data ['-'] [' '])
    (("%20").data) [' '])) false)

/-- Dedup-time URL-derived name (lines 309-315): the last segment of
`url.rstrip('/').split('/')` that is non-empty, not `"solutions"`, not
`"products"` and not in `seen_urls`. -/
def deriveSlug (seen : List String) (url : String) : Option String :=
  ((urlParts url).reverse.find? (fun p =>
      p != "" && p != "solutions" && p != "products" && !(seen.contains p))).map
    slugToName

/-- Name repair applied to a record before insertion (lines 306-319): a
record whose name is falsy or `"Unknown Product"` gets a URL-derived name,
and `"SHL Assessment - " + test_type` if that still fails. -/
def fixRecord (seen : List String) (a : Assessment) : Assessment :=
  if a.name = "" ∨ a.name = "Unknown Product" then
    let a1 :=
      match deriveSlug seen a.url with
      | some n => { a with name := n }
      | none => a
    if a1.name = "" ∨ a1.name = "Unknown Product" then
      { a1 with name := "SHL Assessment - " ++ a1.test_type }
    else a1
  else a

/-- The dedup loop of lines 301-322: keep the first record of each `url`
(repairing its name), drop later duplicates.  `seen` is `seen_urls`. -/
def normalizeFrom (seen : List String) : List Assessment → List Assessment
  | [] => []
  | a :: rest =>
    if a.url ∈ seen then normalizeFrom seen rest
    else fixRecord seen a :: normalizeFrom (a.url :: seen) rest

def normalize (l : List Assessment) : List Assessment := normalizeFrom [] l

/-- `scrape_shl_assessments` after the per-URL loop has produced `raw`
(lines 278-325): substitute the two built-in defaults when the loop yielded
nothing, then deduplicate/repair. -/
def scrapeResult (raw : List Assessment) : List Assessment :=
  normalize (if raw = [] then defaultAssessments else raw)

/-- `unnamed_count` of `refresh_assessments` (line 541). -/
def unnamedCount (l : List Assessment) : Nat :=
  (l.filter (fun a => a.name == "Unknown Product")).length

/-- Whether `refresh_assessments` schedules the `fix_assessment_names`
background task (lines 554-556): exactly when `unnamed_count > 0`. -/
def refreshSchedulesRepair (raw : List Assessment) : Bool :=
  decide (0 < unnamedCount (scrapeResult raw))

/-! ## CacheStore (`fetch_shl_assessments_async`, lines 330-350) -/

structure CacheEnvelope where
  timestamp : ℚ
  assessments : List Assessment
deriving DecidableEq

/-- The three states the persisted cache file can be in when read. -/
inductive CacheState where
  | missing
  | corrupt
  | present (env : CacheEnvelope)

/-- The cache read of `fetch_shl_assessments_async`: `some records` when
the envelope exists, parses and `now - timestamp < 86400` (CACHE_EXPIRY);
`none` (fall through to a fresh scrape) otherwise — expired, missing or
unreadable. -/
def cacheGet (st : CacheState) (now : ℚ) : Option (List Assessment) :=
  match st with
  | .present env => if now - env.timestamp < 86400 then some env.assessments else none
  | .missing => none
  | .corrupt => none

/-! ## NameResolver at fetch time (`scrape_shl_assessments`, lines 173-206) -/

/-- Python truthiness test of the `name` variable (`None` or `""`). -/
def pyFalsy : Option String → Bool
  | none => true
  | some s => s == ""

def getDStr : Option String → String
  | none => ""
  | some s => s

/-- Title cleanup of line 179:
`page_title.replace(" | SHL", "").replace("SHL |", "").replace("SHL", "").strip()`. -/
def stripTitle (t : String) : String :=
  String.mk (stripL (replaceL (replaceL (replaceL t.data
    ((" | SHL").data) []) (("SHL |").data) []) (("SHL").data) []))

/-- The generic placeholders of line 193. -/
def genericNames : List String := ["home", "solutions", "products", "assessments"]

/-- Fetch-time URL-segment name (lines 181-190): last segment that is
non-empty and neither `"solutions"` nor `"products"`, slug-converted. -/
def urlSegmentName (url : String) : Option String :=
  ((urlParts url).reverse.find? (fun p =>
      p != "" && p != "solutions" && p != "products")).map slugToName

/-- Keyword fallback chain of lines 193-206. -/
def keywordFallback (url : String) : String :=
  let u := (lowerStr url).data
  if containsL u (("personality").data) then "Personality Assessment"
  else if containsL u (("cognitive").data) then "Cognitive Assessment"
  else if containsL u (("skills").data) then "Skills Assessment"
  else if containsL u (("video-interviews").data) then "Video Interview Assessment"
  else if containsL u (("360").data) then "360 Feedback Assessment"
  else "SHL Assessment"

/-- Lines 176-179: `name = None`, then the stripped title if the page
title is non-empty. -/
def nameStep1 (pageTitle : String) : Option String :=
  if pageTitle == "" then none else some (stripTitle pageTitle)

/-- Lines 181-190: the URL-segment fallback, taken only when `name` is
still falsy (`None` or `""`); when the segment search finds nothing,
`name` is left as it was. -/
def nameStep2 (url : String) (n0 : Option String) : Option String :=
  if pyFalsy n0 then
    match urlSegmentName url with
    | some s => some s
    | none => n0
  else n0

/-- Lines 192-206: the keyword chain, taken when `name` is falsy or a
generic placeholder. -/
def nameStep3 (url : String) (n1 : Option String) : String :=
  if pyFalsy n1 || genericNames.contains (lowerStr (getDStr n1)) then
    keywordFallback url
  else getDStr n1

/-- Name resolution of lines 173-206, the three steps composed. -/
def resolveName (pageTitle url : String) : String :=
  nameStep3 url (nameStep2 url (nameStep1 pageTitle))

/-! ## RepairTask (`fix_assessment_names`, lines 561-618) -/

/-- Model of `re.sub(r'[^\w\s]', ' ', s)` (ASCII `\w` = alphanumeric or
underscore). -/
def cleanNW (l : List Char) : List Char :=
  l.map (fun c => if c.isAlphanum || c == '_' || isWs c then c else ' ')

/-- Model of `re.sub(r'\s+', ' ', s)`: each maximal whitespace run becomes
one space.  The flag records whether the previous character was whitespace. -/
def collapseWs : List Char → Bool → List Char
  | [], _ => []
  | c :: cs, prevWs =>
    if isWs c then
      if prevWs then collapseWs cs true else ' ' :: collapseWs cs true
    else c :: collapseWs cs false

/-- Slug conversion of the repair task (lines 590-594): replace, strip
punctuation, squeeze whitespace, strip, title-case. -/
def repairSlug (p : String) : String :=
  String.mk (titleAux (stripL (collapseWs (cleanNW
    (replaceL (replaceL p.data ['-'] [' ']) (("%20").data) [' '])) false)) false)

/-- Repair-time URL segment choice (lines 583-595): last segment not in
`["", "solutions", "products", "assessments", "view"]`. -/
def repairFind (url : String) : Option String :=
  (urlParts url).reverse.find? (fun p =>
    p != "" && !((["", "solutions", "products", "assessments", "view"] :
      List String).contains p))

/-- The `name = name or default` idiom of lines 598-605. -/
def pyOrD (n : Option String) (d : String) : Option String :=
  if pyFalsy n then some d else n

/-- Replacement name computed by `fix_assessment_names` for one placeholder
record (lines 582-608). -/
def repairName (url tt : String) : String :=
  let n0 := (repairFind url).map repairSlug
  let u := (lowerStr url).data
  let n1 :=
    if containsL u (("personality").data) then pyOrD n0 "Personality Assessment"
    else if containsL u (("cognitive").data) then pyOrD n0 "Cognitive Assessment"
    else if containsL u (("video-interview").data) then pyOrD n0 "Video Interview"
    else if containsL u (("360").data) then pyOrD n0 "360 Feedback Assessment"
    else n0
  if pyFalsy n1 then "SHL Assessment - " ++ tt else getDStr n1

/-- Per-record step of the repair loop (lines 578-611): only records named
exactly `"Unknown Product"` are touched. -/
def fixOne (a : Assessment) : Assessment :=
  if a.name = "Unknown Product" then
    { a with name := repairName a.url a.test_type }
  else a

/-- `fix_assessment_names` on the persisted envelope: a no-op when the
cache file is absent (lines 565-567), otherwise the whole envelope is
rewritten with each record's name repaired and the timestamp untouched. -/
def fixAssessmentNames : Option CacheEnvelope → Option CacheEnvelope
  | none => none
  | some env => some { timestamp := env.timestamp
                       assessments := env.assessments.map fixOne }

/-! ## RecommendationEngine (`get_recommendations_async`, lines 456-511) -/

/-- An admissible enumeration of a Python `set`: `order l` lists the
distinct elements of `l`, in some order.  CPython does not specify which
order `list(set(...))` produces, so the engine is parameterised by it. -/
def IsSetList (order : List Nat → List Nat) : Prop :=
  ∀ l : List Nat, (order l).Nodup ∧ ∀ x : Nat, x ∈ order l ↔ x ∈ l

/-- Lines 485-511 of `get_recommendations_async`, from the oracle's reply
text on: scan the reply for digit runs, convert them to integers (a failed
conversion would surface `"Failed to parse Gemini response"`), deduplicate
as a set, truncate the enumeration to 10, then keep `catalog[id]` for each
surviving id with `0 <= id < len(catalog)`. -/
def getRecommendations (order : List Nat → List Nat)
    (catalog : List Assessment) (reply : String) :
    Except String (List Assessment) :=
  match parseIds (digitRuns reply) with
  | none => Except.error "Failed to parse Gemini response"
  | some ids =>
    Except.ok (((order ids).take 10).filterMap (fun i => catalog[i]?))

/-- Keep-first set enumeration — one admissible order. -/
def pyDedup (l : List Nat) : List Nat := dedupFirst l

/-- Reversed keep-first set enumeration — another admissible order
(CPython's actual iteration order is hash-table order, which is neither
ascending nor insertion order in general, e.g. `list({8, 0}) == [8, 0]`). -/
def revDedup (l : List Nat) : List Nat := (dedupFirst l).reverse

/-! ## Lemmas about the normalizer -/

theorem shlDefault_ne (t : String) :
    ("SHL Assessment - " ++ t) ≠ "" ∧ ("SHL Assessment - " ++ t) ≠ "Unknown Product" := by
  have h17 : ("SHL Assessment - ").length = 17 := rfl
  have hlen : ("SHL Assessment - " ++ t).length = 17 + t.length := by
    rw [String.length_append, h17]
  refine ⟨fun h => ?_, fun h => ?_⟩
  · rw [h] at hlen
    have h0 : ("" : String).length = 0 := rfl
    rw [h0] at hlen
    omega
  · rw [h] at hlen
    have h0 : ("Unknown Product").length = 15 := rfl
    rw [h0] at hlen
    omega

theorem fixRecord_shape (seen : List String) (a : Assessment) :
    ∃ n, fixRecord seen a = { a with name := n } := by
  unfold fixRecord
  split
  · rcases h : deriveSlug seen a.url with _ | n <;> simp only [h] <;> split
    all_goals exact ⟨_, rfl⟩
  · exact ⟨a.name, rfl⟩

theorem fixRecord_url (seen : List String) (a : Assessment) :
    (fixRecord seen a).url = a.url := by
  obtain ⟨n, h⟩ := fixRecord_shape seen a
  rw [h]

theorem fixRecord_of_good (seen : List String) (a : Assessment)
    (h1 : a.name ≠ "") (h2 : a.name ≠ "Unknown Product") :
    fixRecord seen a = a := by
  unfold fixRecord
  rw [if_neg]
  simp [h1, h2]

theorem fixRecord_name_good (seen : List String) (a : Assessment) :
    (fixRecord seen a).name ≠ "" ∧ (fixRecord seen a).name ≠ "Unknown Product" := by
  unfold fixRecord
  split
  · rcases h : deriveSlug seen a.url with _ | n <;> simp only [h] <;> split
    all_goals first
      | exact shlDefault_ne _
      | (rename_i hb; exact not_or.mp hb)
  · rename_i hb
    exact not_or.mp hb

theorem normalizeFrom_notMem_seen (seen : List String) (l : List Assessment)
    (a : Assessment) (ha : a ∈ normalizeFrom seen l) : a.url ∉ seen := by
  induction l generalizing seen with
  | nil => simp [normalizeFrom] at ha
  | cons x rest ih =>
    unfold normalizeFrom at ha
    split at ha
    · exact ih seen ha
    · next hx =>
      rcases List.mem_cons.mp ha with h | h
      · subst h
        rw [fixRecord_url]
        exact hx
      · have := ih (x.url :: seen) h
        exact fun hc => this (List.mem_cons_of_mem _ hc)

theorem normalizeFrom_map_url (seen : List String) (l : List Assessment) :
    (normalizeFrom seen l).map (fun r => r.url) =
      dedupFirstAux seen (l.map (fun r => r.url)) := by
  induction l generalizing seen with
  | nil => rfl
  | cons x rest ih =>
    simp only [List.map_cons, normalizeFrom, dedupFirstAux]
    split
    · exact ih seen
    · simp only [List.map_cons, fixRecord_url, ih (x.url :: seen)]

theorem normalizeFrom_nodup_url (seen : List String) (l : List Assessment) :
    ((normalizeFrom seen l).map (fun r => r.url)).Nodup := by
  induction l generalizing seen with
  | nil => simp [normalizeFrom]
  | cons x rest ih =>
    unfold normalizeFrom
    split
    · exact ih seen
    · simp only [List.map_cons, List.nodup_cons]
      refine ⟨?_, ih (x.url :: seen)⟩
      intro hc
      rw [fixRecord_url] at hc
      obtain ⟨b, hb, hbu⟩ := List.mem_map.mp hc
      have := normalizeFrom_notMem_seen _ _ _ hb
      exact this (hbu ▸ List.mem_cons_self _ _)

theorem normalizeFrom_names_good (seen : List String) (l : List Assessment)
    (a : Assessment) (ha : a ∈ normalizeFrom seen l) :
    a.name ≠ "" ∧ a.name ≠ "Unknown Product" := by
  induction l generalizing seen with
  | nil => simp [normalizeFrom] at ha
  | cons x rest ih =>
    unfold normalizeFrom at ha
    split at ha
    · exact ih seen ha
    · rcases List.mem_cons.mp ha with h | h
      · subst h; exact fixRecord_name_good seen x
      · exact ih (x.url :: seen) h

theorem normalizeFrom_of_clean (seen : List String) (l : List Assessment)
    (hdisj : ∀ a ∈ l, a.url ∉ seen)
    (hnd : (l.map (fun r => r.url)).Nodup)
    (hnames : ∀ a ∈ l, a.name ≠ "" ∧ a.name ≠ "Unknown Product") :
    normalizeFrom seen l = l := by
  induction l generalizing seen with
  | nil => rfl
  | cons x rest ih =>
    unfold normalizeFrom
    rw [if_neg (hdisj x (List.mem_cons_self _ _))]
    have hx := hnames x (List.mem_cons_self _ _)
    rw [fixRecord_of_good seen x hx.1 hx.2]
    congr 1
    simp only [List.map_cons, List.nodup_cons] at hnd
    refine ih (x.url :: seen) ?_ hnd.2 ?_
    · intro a ha
      simp only [List.mem_cons]
      push_neg
      refine ⟨?_, hdisj a (List.mem_cons_of_mem _ ha)⟩
      intro hc
      exact hnd.1 (hc ▸ List.mem_map_of_mem (fun r => r.url) ha)
    · exact fun a ha => hnames a (List.mem_cons_of_mem _ ha)

theorem normalizeFrom_first_occurrence (seen : List String) (l : List Assessment)
    (a : Assessment) (ha : a ∈ normalizeFrom seen l) :
    ∃ b, l.find? (fun r => r.url == a.url) = some b ∧ a.url = b.url ∧
      a.remote_testing = b.remote_testing ∧ a.adaptive_support = b.adaptive_support ∧
      a.duration = b.duration ∧ a.test_type = b.test_type ∧
      (b.name ≠ "" → b.name ≠ "Unknown Product" → a = b) := by
  induction l generalizing seen with
  | nil => simp [normalizeFrom] at ha
  | cons x rest ih =>
    unfold normalizeFrom at ha
    split at ha
    · next hx =>
      obtain ⟨b, hb, hrest⟩ := ih seen ha
      refine ⟨b, ?_, hrest⟩
      rw [List.find?_cons_of_neg, hb]
      have hseen := normalizeFrom_notMem_seen seen rest a ha
      simp only [beq_iff_eq]
      exact fun hc => hseen (hc ▸ hx)
    · next hx =>
      rcases List.mem_cons.mp ha with h | h
      · subst h
        refine ⟨x, ?_, ?_⟩
        · rw [List.find?_cons_of_pos]
          simp [fixRecord_url]
        · obtain ⟨n, hn⟩ := fixRecord_shape seen x
          rw [hn]
          refine ⟨rfl, rfl, rfl, rfl, rfl, ?_⟩
          intro h1 h2
          rw [← hn, fixRecord_of_good seen x h1 h2]
      · obtain ⟨b, hb, hrest⟩ := ih (x.url :: seen) h
        refine ⟨b, ?_, hrest⟩
        rw [List.find?_cons_of_neg, hb]
        have hseen := normalizeFrom_notMem_seen (x.url :: seen) rest a h
        simp only [beq_iff_eq]
        exact fun hc => hseen (hc ▸ List.mem_cons_self _ _)

/-! ## Lemmas about set enumerations and the reply parser -/

theorem dedupFirstAux_spec {α : Type} [DecidableEq α] (seen : List α) (l : List α) :
    (dedupFirstAux seen l).Nodup ∧
      ∀ x, x ∈ dedupFirstAux seen l ↔ x ∈ l ∧ x ∉ seen := by
  induction l generalizing seen with
  | nil => simp [dedupFirstAux]
  | cons y ys ih =>
    unfold dedupFirstAux
    split
    · next hy =>
      obtain ⟨hnd, hmem⟩ := ih seen
      refine ⟨hnd, fun x => ?_⟩
      rw [hmem x]
      constructor
      · exact fun ⟨h1, h2⟩ => ⟨List.mem_cons_of_mem _ h1, h2⟩
      · rintro ⟨h1, h2⟩
        rcases List.mem_cons.mp h1 with h | h
        · exact absurd (h ▸ hy) h2
        · exact ⟨h, h2⟩
    · next hy =>
      obtain ⟨hnd, hmem⟩ := ih (y :: seen)
      constructor
      · refine List.nodup_cons.mpr ⟨fun hc => ?_, hnd⟩
        exact ((hmem y).mp hc).2 (List.mem_cons_self _ _)
      · intro x
        simp only [List.mem_cons, hmem x]
        constructor
        · rintro (h | ⟨h1, h2⟩)
          · exact ⟨Or.inl h, h ▸ hy⟩
          · exact ⟨Or.inr h1, fun hc => h2 (Or.inr hc)⟩
        · rintro ⟨h1 | h1, h2⟩
          · exact Or.inl h1
          · by_cases hxy : x = y
            · exact Or.inl hxy
            · exact Or.inr ⟨h1, fun hc => hc.elim hxy h2⟩

theorem pyDedup_isSetList : IsSetList pyDedup := by
  intro l
  obtain ⟨hnd, hmem⟩ := dedupFirstAux_spec ([] : List Nat) l
  refine ⟨hnd, fun x => ?_⟩
  rw [pyDedup, dedupFirst, hmem x]
  simp

theorem revDedup_isSetList : IsSetList revDedup := by
  intro l
  obtain ⟨hnd, hmem⟩ := dedupFirstAux_spec ([] : List Nat) l
  refine ⟨List.nodup_reverse.mpr hnd, fun x => ?_⟩
  rw [revDedup, List.mem_reverse, dedupFirst, hmem x]
  simp

theorem isSetList_nil (order : List Nat → List Nat) (h : IsSetList order) :
    order [] = [] := by
  cases he : order [] with
  | nil => rfl
  | cons x xs =>
    have := ((h []).2 x).mp (he ▸ List.mem_cons_self x xs)
    simp at this

theorem digitRuns_run_digits (l cur : List Char) (hcur : ∀ c ∈ cur, c.isDigit)
    (r : String) (hr : r ∈ digitRunsAux l cur) :
    r.data ≠ [] ∧ ∀ c ∈ r.data, c.isDigit := by
  induction l generalizing cur with
  | nil =>
    unfold digitRunsAux at hr
    split at hr
    · simp at hr
    · next hcur2 =>
      rcases List.mem_cons.mp hr with h | h
      · subst h
        refine ⟨fun hc => ?_, fun c hc => ?_⟩
        · apply hcur2
          have : cur.reverse = [] := hc
          simpa using congrArg List.isEmpty this
        · exact hcur c (List.mem_reverse.mp hc)
      · simp at h
  | cons c cs ih =>
    unfold digitRunsAux at hr
    split at hr
    · next hd => exact ih (c :: cur) (by
        intro x hx
        rcases List.mem_cons.mp hx with h | h
        · exact h ▸ hd
        · exact hcur x h) hr
    · split at hr
      · exact ih [] (by simp) hr
      · next hd hcur2 =>
        rcases List.mem_cons.mp hr with h | h
        · subst h
          refine ⟨fun hc => ?_, fun x hx => ?_⟩
          · apply hcur2
            have : cur.reverse = [] := hc
            simpa using congrArg List.isEmpty this
          · exact hcur x (List.mem_reverse.mp hx)
        · exact ih [] (by simp) h

theorem digitRuns_all_digits (s : String) (r : String) (hr : r ∈ digitRuns s) :
    r.data ≠ [] ∧ ∀ c ∈ r.data, c.isDigit :=
  digitRuns_run_digits s.data [] (by simp) r hr

theorem digitRuns_of_no_digit (s : String)
    (h : ∀ c ∈ s.data, ¬ (c.isDigit = true)) : digitRuns s = [] := by
  rw [digitRuns]
  have : ∀ l : List Char, (∀ c ∈ l, ¬ (c.isDigit = true)) → digitRunsAux l [] = [] := by
    intro l
    induction l with
    | nil => intro _; rfl
    | cons c cs ih =>
      intro hl
      unfold digitRunsAux
      rw [if_neg (hl c (List.mem_cons_self _ _))]
      simp only [List.isEmpty_nil, if_true]
      exact ih fun x hx => hl x (List.mem_cons_of_mem _ hx)
  exact this s.data h

theorem pyInt_isSome_of_digits (r : String) (h1 : r.data ≠ [])
    (h2 : ∀ c ∈ r.data, c.isDigit) : (pyInt r).isSome = true := by
  rw [pyInt, if_pos]
  · rfl
  · simp only [Bool.and_eq_true, Bool.not_eq_true']
    exact ⟨by simpa using h1, List.all_eq_true.mpr h2⟩

theorem parseIds_isSome (runs : List String)
    (h : ∀ r ∈ runs, (pyInt r).isSome = true) :
    ∃ ids, parseIds runs = some ids := by
  induction runs with
  | nil => exact ⟨[], rfl⟩
  | cons s rest ih =>
    obtain ⟨ids, hids⟩ := ih fun r hr => h r (List.mem_cons_of_mem _ hr)
    obtain ⟨n, hn⟩ := Option.isSome_iff_exists.mp (h s (List.mem_cons_self _ _))
    exact ⟨n :: ids, by rw [parseIds, hn, hids]⟩

theorem getRecommendations_ok (order : List Nat → List Nat)
    (catalog : List Assessment) (reply : String) :
    ∃ ids, parseIds (digitRuns reply) = some ids ∧
      getRecommendations order catalog reply =
        Except.ok (((order ids).take 10).filterMap (fun i => catalog[i]?)) := by
  obtain ⟨ids, hids⟩ := parseIds_isSome (digitRuns reply) (by
    intro r hr
    obtain ⟨h1, h2⟩ := digitRuns_all_digits reply r hr
    exact pyInt_isSome_of_digits r h1 h2)
  exact ⟨ids, hids, by rw [getRecommendations, hids]⟩

/-! ## Lemmas about the fetch-time name resolver -/

theorem nameStep1_of_ne {title : String} (h : title ≠ "") :
    nameStep1 title = some (stripTitle title) := by
  rw [nameStep1, if_neg (by simp [h])]

theorem nameStep2_of_good (url : String) (s : String) (hs : s ≠ "") :
    nameStep2 url (some s) = some s := by
  rw [nameStep2, if_neg (by simp [pyFalsy, hs])]

theorem nameStep3_of_good (url : String) (s : String) (hs : s ≠ "")
    (hg : lowerStr s ∉ genericNames) : nameStep3 url (some s) = s := by
  rw [nameStep3, if_neg]
  · rfl
  · simp only [pyFalsy, getDStr, Bool.or_eq_true, beq_iff_eq, List.contains,
      List.elem_eq_mem, decide_eq_true_eq]
    rintro (h | h)
    · exact hs h
    · exact hg h

theorem nameStep3_of_generic (url : String) (s : String)
    (hg : lowerStr s ∈ genericNames) :
    nameStep3 url (some s) = keywordFallback url := by
  rw [nameStep3, if_pos]
  simp only [pyFalsy, getDStr, Bool.or_eq_true, beq_iff_eq, List.contains,
    List.elem_eq_mem, decide_eq_true_eq]
  exact Or.inr hg

/-! ## Claim theorems -/

/-- C5: the cache read returns the stored records exactly when
`now - timestamp < 86400`, and falls through to a fresh fetch exactly when
`now - timestamp >= 86400` or the persisted state is missing or
unreadable. -/
theorem c5_cache_freshness (t : ℚ) (recs : List Assessment) (now : ℚ) :
    (cacheGet (.present ⟨t, recs⟩) now = some recs ↔ now - t < 86400) ∧
    (cacheGet (.present ⟨t, recs⟩) now = none ↔ 86400 ≤ now - t) ∧
    cacheGet .missing now = none ∧ cacheGet .corrupt now = none := by
  refine ⟨?_, ?_, rfl, rfl⟩ <;> rw [cacheGet] <;> split
  · next h => simp [h]
  · next h => simp [h]
  · next h => simp [h, not_le.mpr h]
  · next h => simp [h, not_lt.mp h]

/-- C6: when the per-URL loop produced zero raw records the fetch returns
exactly the two built-in default records, and the fetch never returns an
empty catalog. -/
theorem c6_fallback_defaults :
    scrapeResult [] = defaultAssessments ∧
    ∀ raw : List Assessment, 0 < (scrapeResult raw).length := by
  constructor
  · decide
  · intro raw
    rw [scrapeResult]
    by_cases h : raw = []
    · rw [if_pos h]
      decide
    · rw [if_neg h]
      cases raw with
      | nil => exact absurd rfl h
      | cons x xs =>
        rw [normalize]
        unfold normalizeFrom
        rw [if_neg (List.not_mem_nil x.url)]
        simp

/-- C9: the deduplication/repair step is idempotent — normalizing its own
output changes nothing. -/
theorem c9_normalize_idempotent (raw : List Assessment) :
    normalize (normalize raw) = normalize raw := by
  rw [normalize]
  apply normalizeFrom_of_clean
  · intro a _
    exact List.not_mem_nil a.url
  · exact normalizeFrom_nodup_url [] raw
  · exact fun a ha => normalizeFrom_names_good [] raw a ha

/-- C10: every record the fetch/normalize pipeline emits has a non-empty
name different from the placeholder, so `unnamed_count` over a freshly
scraped catalog is 0 and `refresh_assessments` never schedules the repair
task. -/
theorem c10_no_placeholder_after_scrape (raw : List Assessment) :
    unnamedCount (scrapeResult raw) = 0 ∧
    refreshSchedulesRepair raw = false ∧
    ∀ a ∈ scrapeResult raw, a.name ≠ "Unknown Product" ∧ a.name ≠ "" := by
  have hnames : ∀ a ∈ scrapeResult raw, a.name ≠ "Unknown Product" ∧ a.name ≠ "" := by
    intro a ha
    have h := normalizeFrom_names_good [] _ a ha
    exact ⟨h.2, h.1⟩
  have hcount : unnamedCount (scrapeResult raw) = 0 := by
    rw [unnamedCount, List.length_eq_zero, List.filter_eq_nil_iff]
    intro a ha
    simp only [beq_iff_eq]
    exact (hnames a ha).1
  refine ⟨hcount, ?_, hnames⟩
  rw [refreshSchedulesRepair, hcount]
  rfl

/-- C2: normalization produces a catalog without duplicate urls; the url
sequence is the first-occurrence deduplication of the input urls, and each
kept record is the first input record with its url (every field equal
except the name, which the documented repair rewrites exactly when it was
empty or the placeholder). -/
theorem c2_dedup_keeps_first (raw : List Assessment) (a : Assessment)
    (ha : a ∈ normalize raw) :
    ((normalize raw).map (fun r => r.url)).Nodup ∧
    (normalize raw).map (fun r => r.url) = dedupFirst (raw.map (fun r => r.url)) ∧
    ∃ b, raw.find? (fun r => r.url == a.url) = some b ∧ a.url = b.url ∧
      a.remote_testing = b.remote_testing ∧ a.adaptive_support = b.adaptive_support ∧
      a.duration = b.duration ∧ a.test_type = b.test_type ∧
      (b.name ≠ "" → b.name ≠ "Unknown Product" → a = b) :=
  ⟨normalizeFrom_nodup_url [] raw, normalizeFrom_map_url [] raw,
    normalizeFrom_first_occurrence [] raw a ha⟩

/-- A raw list with a duplicated url, used to exercise `c2_dedup_keeps_first`. -/
def dupRaw : List Assessment :=
  [verifyRecord, { verifyRecord with duration := "5 minutes" }, opqRecord]

theorem c2_witness :
    (dupRaw.find? (fun r => r.url == verifyRecord.url)).isSome = true := by
  obtain ⟨b, hb, -⟩ := (c2_dedup_keeps_first dupRaw verifyRecord (by decide)).2.2
  rw [hb]
  rfl

/-- C1: whatever the oracle replies and however the set is enumerated, a
successful recommendation result has at most 10 records and each record is
a copy of a record at some valid index of the catalog snapshot. -/
theorem c1_bounded_from_catalog (order : List Nat → List Nat)
    (catalog : List Assessment) (reply : String) (recs : List Assessment)
    (h : getRecommendations order catalog reply = Except.ok recs) :
    recs.length ≤ 10 ∧
    ∀ r ∈ recs, ∃ i, ∃ hi : i < catalog.length, r = catalog.get ⟨i, hi⟩ := by
  obtain ⟨ids, _, hok⟩ := getRecommendations_ok order catalog reply
  rw [hok] at h
  injection h with h2
  subst h2
  constructor
  · calc (((order ids).take 10).filterMap (fun i => catalog[i]?)).length
        ≤ ((order ids).take 10).length := List.length_filterMap_le _ _
      _ ≤ 10 := by rw [List.length_take]; exact min_le_left _ _
  · intro r hr
    obtain ⟨i, _, hfi⟩ := List.mem_filterMap.mp hr
    have hlt : i < catalog.length := by
      by_contra hge
      rw [List.getElem?_eq_none (le_of_not_lt hge)] at hfi
      cases hfi
    refine ⟨i, hlt, ?_⟩
    rw [List.getElem?_eq_getElem hlt] at hfi
    injection hfi with h3
    rw [← h3]
    rfl

theorem c1_witness :
    ([verifyRecord, opqRecord] : List Assessment).length ≤ 10 ∧
    ∀ r ∈ ([verifyRecord, opqRecord] : List Assessment),
      ∃ i, ∃ hi : i < defaultAssessments.length, r = defaultAssessments.get ⟨i, hi⟩ :=
  c1_bounded_from_catalog pyDedup defaultAssessments "I recommend 0 and also 1"
    [verifyRecord, opqRecord] rfl

/-- C3 counterexample: on an oracle reply with no digits at all, the code
returns a successful empty recommendation list (`re.findall` yields `[]`,
no `ValueError` is raised, the loop appends nothing), not an error. -/
theorem c3_counterexample :
    getRecommendations pyDedup defaultAssessments
      "I cannot find any relevant assessments." = Except.ok [] := rfl

/-- C3 amended: for every admissible set enumeration, a reply containing
no digit characters yields the successful empty result, never the parse
error. -/
theorem c3_amended_empty_ok (order : List Nat → List Nat) (h : IsSetList order)
    (catalog : List Assessment) (reply : String)
    (hno : ∀ c ∈ reply.data, ¬ (c.isDigit = true)) :
    getRecommendations order catalog reply = Except.ok [] := by
  have h1 : digitRuns reply = [] := digitRuns_of_no_digit reply hno
  have h2 : order [] = [] := isSetList_nil order h
  rw [getRecommendations, h1]
  show Except.ok (((order []).take 10).filterMap (fun i => catalog[i]?)) = _
  rw [h2]
  rfl

theorem c3_witness :
    getRecommendations pyDedup defaultAssessments "no ids to report" =
      Except.ok [] :=
  c3_amended_empty_ok pyDedup pyDedup_isSetList defaultAssessments
    "no ids to report" (by decide)

/-- C4 counterexample: the set-enumeration order is unspecified, so the
output need not be in ascending index order — with the admissible
enumeration `revDedup`, the scenario reply yields the two records reversed
— and truncation to 10 happens before range filtering, so eleven distinct
out-of-range-heavy ids can push a valid id out entirely (keep-first order
shown), where the claim's discard-then-truncate semantics would keep
record 0. -/
theorem c4_counterexample :
    getRecommendations revDedup defaultAssessments "I recommend 0 and also 1" =
      Except.ok [opqRecord, verifyRecord] ∧
    ([opqRecord, verifyRecord] : List Assessment) ≠ [verifyRecord, opqRecord] ∧
    getRecommendations pyDedup defaultAssessments "5 6 7 8 9 10 11 12 13 14 0" =
      Except.ok [] := by
  refine ⟨rfl, by decide, rfl⟩

/-- C4 amended: parsed integers are deduplicated; the deduplicated ids are
truncated to at most 10 in the (unspecified) set-enumeration order before
out-of-range ids are discarded; the output lists the surviving records in
that enumeration order; in the 2-record scenario the result contains
exactly records 0 and 1, in enumeration order (not necessarily
ascending). -/
theorem c4_amended_dedup_truncate (order : List Nat → List Nat)
    (h : IsSetList order) :
    (∀ (catalog : List Assessment) (reply : String), ∃ ids idxs recs,
        parseIds (digitRuns reply) = some ids ∧
        idxs = (order ids).take 10 ∧
        idxs.Nodup ∧
        idxs.length ≤ 10 ∧
        (∀ i ∈ idxs, i ∈ ids) ∧
        getRecommendations order catalog reply = Except.ok recs ∧
        recs = idxs.filterMap (fun i => catalog[i]?)) ∧
    (∀ recs, getRecommendations order defaultAssessments
        "I recommend 0 and also 1" = Except.ok recs →
      recs.Perm [verifyRecord, opqRecord]) := by
  constructor
  · intro catalog reply
    obtain ⟨ids, hids, hok⟩ := getRecommendations_ok order catalog reply
    refine ⟨ids, (order ids).take 10, _, hids, rfl, ?_, ?_, ?_, hok, rfl⟩
    · exact (h ids).1.sublist (List.take_sublist _ _)
    · rw [List.length_take]
      exact min_le_left _ _
    · intro i hi
      exact ((h ids).2 i).mp ((List.take_sublist _ _).subset hi)
  · intro recs hr
    obtain ⟨ids, hids, hok⟩ :=
      getRecommendations_ok order defaultAssessments "I recommend 0 and also 1"
    have hids2 : ids = [0, 1] := by
      have h01 : parseIds (digitRuns "I recommend 0 and also 1") = some [0, 1] := rfl
      rw [h01] at hids
      injection hids with h'
      exact h'.symm
    subst hids2
    rw [hok] at hr
    injection hr with h2
    subst h2
    have hperm : (order [0, 1]).Perm [0, 1] := by
      refine (List.perm_ext_iff_of_nodup (h [0, 1]).1 (by decide)).mpr ?_
      intro a
      rw [(h [0, 1]).2 a]
    have htake : (order [0, 1]).take 10 = order [0, 1] :=
      List.take_of_length_le (by rw [hperm.length_eq]; decide)
    rw [htake]
    have hfm := hperm.filterMap (fun i => defaultAssessments[i]?)
    have hconc : (([0, 1] : List Nat).filterMap
        (fun i => defaultAssessments[i]?)) = [verifyRecord, opqRecord] := rfl
    rw [hconc] at hfm
    exact hfm

theorem c4_witness :
    ∃ recs, getRecommendations pyDedup defaultAssessments
        "I recommend 0 and also 1" = Except.ok recs ∧
      recs.Perm [verifyRecord, opqRecord] :=
  ⟨[verifyRecord, opqRecord], rfl,
    (c4_amended_dedup_truncate pyDedup pyDedup_isSetList).2
      [verifyRecord, opqRecord] rfl⟩

/-- C7 counterexample: for the generic (but non-empty) title `"Home"`, the
code skips the URL-segment fallback entirely and lands on the keyword
chain's literal fallback `"SHL Assessment"`, although the URL's last
non-generic segment would have yielded `"Verify Interactive"` as the claim
requires. -/
theorem c7_counterexample :
    resolveName "Home"
        "https://www.shl.com/solutions/products/verify-interactive/" =
      "SHL Assessment" ∧
    urlSegmentName "https://www.shl.com/solutions/products/verify-interactive/" =
      some "Verify Interactive" ∧
    ("SHL Assessment" : String) ≠ "Verify Interactive" :=
  ⟨rfl, rfl, by decide⟩

/-- C7 amended: a non-empty, non-generic stripped title is used; the URL
path segment is consulted only when the title is absent or strips to
empty; a non-empty generic stripped title skips the segment step and goes
directly to the keyword-table/literal fallback. -/
theorem c7_amended_precedence (title url : String) :
    (title ≠ "" → stripTitle title ≠ "" →
      lowerStr (stripTitle title) ∉ genericNames →
      resolveName title url = stripTitle title) ∧
    ((title = "" ∨ stripTitle title = "") →
      ∀ seg, urlSegmentName url = some seg → seg ≠ "" →
      lowerStr seg ∉ genericNames →
      resolveName title url = seg) ∧
    (title ≠ "" → stripTitle title ≠ "" →
      lowerStr (stripTitle title) ∈ genericNames →
      resolveName title url = keywordFallback url) := by
  refine ⟨fun h1 h2 h3 => ?_, fun h1 seg hseg h2 h3 => ?_, fun h1 h2 h3 => ?_⟩
  · rw [resolveName, nameStep1_of_ne h1, nameStep2_of_good url _ h2]
    exact nameStep3_of_good url _ h2 h3
  · have e2 : nameStep2 url (nameStep1 title) = some seg := by
      have e1 : nameStep1 title = none ∨ nameStep1 title = some "" := by
        by_cases h0 : title = ""
        · exact Or.inl (by rw [nameStep1, if_pos (by simp [h0])])
        · rcases h1 with h | h
          · exact absurd h h0
          · exact Or.inr (by rw [nameStep1_of_ne h0, h])
      rcases e1 with h | h <;> rw [nameStep2, h] <;> simp [pyFalsy, hseg]
    rw [resolveName, e2]
    exact nameStep3_of_good url seg h2 h3
  · rw [resolveName, nameStep1_of_ne h1, nameStep2_of_good url _ h2]
    exact nameStep3_of_generic url _ h3

/-- C8: the repair task leaves the envelope timestamp unchanged, leaves
every record whose name is not the placeholder unchanged, rewrites only
the name field of placeholder records, and is a no-op when no envelope is
persisted. -/
theorem c8_repair_frame :
    fixAssessmentNames none = none ∧
    ∀ (env e : CacheEnvelope), fixAssessmentNames (some env) = some e →
      e.timestamp = env.timestamp ∧
      e.assessments.length = env.assessments.length ∧
      ∀ i (h1 : i < env.assessments.length) (h2 : i < e.assessments.length),
        ((env.assessments.get ⟨i, h1⟩).name ≠ "Unknown Product" →
          e.assessments.get ⟨i, h2⟩ = env.assessments.get ⟨i, h1⟩) ∧
        (e.assessments.get ⟨i, h2⟩).url = (env.assessments.get ⟨i, h1⟩).url ∧
        (e.assessments.get ⟨i, h2⟩).remote_testing =
          (env.assessments.get ⟨i, h1⟩).remote_testing ∧
        (e.assessments.get ⟨i, h2⟩).adaptive_support =
          (env.assessments.get ⟨i, h1⟩).adaptive_support ∧
        (e.assessments.get ⟨i, h2⟩).duration =
          (env.assessments.get ⟨i, h1⟩).duration ∧
        (e.assessments.get ⟨i, h2⟩).test_type =
          (env.assessments.get ⟨i, h1⟩).test_type := by
  refine ⟨rfl, fun env e he => ?_⟩
  rw [fixAssessmentNames] at he
  injection he with he2
  subst he2
  refine ⟨rfl, List.length_map _ _, fun i h1 h2 => ?_⟩
  have hget : (env.assessments.map fixOne).get ⟨i, h2⟩ =
      fixOne (env.assessments.get ⟨i, h1⟩) := by
    simp [List.get_eq_getElem, List.getElem_map]
  rw [hget]
  set a := env.assessments.get ⟨i, h1⟩ with ha
  constructor
  · intro hname
    rw [fixOne, if_neg hname]
  · rw [fixOne]
    split <;> exact ⟨rfl, rfl, rfl, rfl, rfl⟩

end SHL
